import Mathlib

set_option maxHeartbeats 1000000

/- Shallow embedding of the DebtBook_Z contract (src/unnamed/part_000).

   Ciphertext handles (euint32) are modelled as a free term algebra CT over
   the FHE operations the contract uses: results of FHE.fromExternal, the
   FHE.zero value, FHE.add and FHE.sub, plus the uninitialized default value
   of a fresh storage slot.  Symbolic FHE handles are deterministic functions
   of their operands, so handle equality is term equality; decrypt gives the
   uint32 cleartext semantics of a handle.

   compareStrings in the source compares keccak256 hashes of the two byte
   strings; keccak is injective for every realisable input here, so it is
   modelled as string equality.  bytes(s).length == 0 is modelled as s = "".

   FHE.allowThis and FHE.makePubliclyDecryptable are ACL capability calls
   against the external FHE system; they touch no ledger storage modelled
   here, so they do not appear in State.

   Solidity require failures revert the whole call.  In this contract every
   require (and every reverting FHE/abi call) precedes every storage write,
   so each external function is embedded as a function from a state to an
   optional error paired with a state, where the error branches return the
   input state unchanged; the atomicity claims below check that this is
   faithful to the statement order of the source. -/

inductive CT : Type
| uninit : CT
| ext : Nat → CT
| zero : CT
| add : CT → CT → CT
| sub : CT → CT → CT
deriving DecidableEq, Repr

/-- FHE.isInitialized: the default storage value is the only uninitialized handle. -/
def CT.isInit : CT → Bool
| .uninit => false
| _ => true

/-- uint32 cleartext semantics of a handle (wrap-around arithmetic mod 2^32). -/
def decrypt : CT → Nat
| .uninit => 0
| .ext n => n % 2 ^ 32
| .zero => 0
| .add a b => (decrypt a + decrypt b) % 2 ^ 32
| .sub a b => (decrypt a + 2 ^ 32 - decrypt b) % 2 ^ 32

/-- struct DebtEntry. -/
structure DebtEntry : Type where
  creditor : String
  debtor : String
  encryptedAmount : CT
  timestamp : Nat
  decryptedAmount : Nat
  isVerified : Bool
deriving DecidableEq, Repr

/-- The default value of a mapping slot: empty strings, uninitialized handle, zeros. -/
def DebtEntry.default : DebtEntry :=
  ⟨"", "", CT.uninit, 0, 0, false⟩

/-- The three events the contract emits. -/
inductive Event : Type
| DebtRecorded : String → String → String → Event
| DecryptionVerified : String → Nat → Event
| NetBalanceUpdated : String → CT → Event
deriving DecidableEq, Repr

/-- The error taxonomy, one constructor per revert site of the contract.
    AbiDecodeFail is the revert of abi.decode on malformed bytes. -/
inductive Err : Type
| DuplicateEntry
| SelfDebt
| NotFound
| InvalidCiphertext
| InvalidProof
| AlreadyVerified
| AbiDecodeFail
deriving DecidableEq, Repr

/-- Contract storage: the two mappings, the two ordered id arrays, plus the
    emitted event log (to state notification claims). -/
structure State : Type where
  debtEntries : String → DebtEntry
  netBalances : String → CT
  entryIds : List String
  participantIds : List String
  events : List Event

/-- Pointwise update of a mapping. -/
def updateFn {α : Type} (f : String → α) (k : String) (v : α) : String → α :=
  fun x => if x = k then v else f x

/-- The state right after deployment: every mapping slot holds its default. -/
def initialState : State :=
  { debtEntries := fun _ => DebtEntry.default
    netBalances := fun _ => CT.uninit
    entryIds := []
    participantIds := []
    events := [] }

/-- compareStrings: keccak equality of the encodings, i.e. string equality. -/
def compareStrings (a b : String) : Bool :=
  a == b

/-- Source name _participantExists: linear scan of participantIds. -/
def participantExists (l : List String) (p : String) : Bool :=
  l.any fun q => compareStrings q p

/-- Source name _updateParticipantList: push p if not already present. -/
def updateParticipantList (l : List String) (p : String) : List String :=
  if participantExists l p then l else l ++ [p]

/-- abi.decode(bytes, (uint32)): a 32 byte word whose upper 28 bytes are zero,
    big-endian value in the last 4 bytes; anything else reverts. -/
def decodeU32 (b : List Nat) : Option Nat :=
  if b.length = 32 && b.all (fun x => x < 256) && (b.take 28).all (fun x => x = 0) then
    some ((b.drop 28).foldl (fun acc x => acc * 256 + x) 0)
  else none

/-- The external FHE gateway, an opaque capability: fromExt models
    FHE.fromExternal (none = revert on a bad ciphertext/proof pair) and
    checkSig models FHE.checkSignatures (false = revert InvalidProof). -/
structure Gateway : Type where
  fromExt : Nat → List Nat → Option CT
  checkSig : CT → List Nat → List Nat → Bool

/-- The storage writes of a successful recordDebt, in source order: store the
    entry, register creditor then debtor, push the id, emit DebtRecorded. -/
def recordState (s : State) (entryId creditor debtor : String) (amount : CT) (now : Nat) : State :=
  { debtEntries := updateFn s.debtEntries entryId ⟨creditor, debtor, amount, now, 0, false⟩
    netBalances := s.netBalances
    entryIds := s.entryIds ++ [entryId]
    participantIds := updateParticipantList (updateParticipantList s.participantIds creditor) debtor
    events := s.events ++ [Event.DebtRecorded entryId creditor debtor] }

/-- Function recordDebt.  now is block.timestamp. -/
def recordDebt (G : Gateway) (s : State) (entryId creditor debtor : String)
    (encryptedAmount : Nat) (inputProof : List Nat) (now : Nat) : Option Err × State :=
  if (s.debtEntries entryId).creditor ≠ "" then (some Err.DuplicateEntry, s)
  else if compareStrings creditor debtor then (some Err.SelfDebt, s)
  else match G.fromExt encryptedAmount inputProof with
    | none => (some Err.InvalidCiphertext, s)
    | some amount =>
      if ¬ amount.isInit then (some Err.InvalidCiphertext, s)
      else (none, recordState s entryId creditor debtor amount now)

/-- The storage writes of a successful verifyDecryption: set decryptedAmount
    and isVerified on the entry, emit DecryptionVerified. -/
def verifyState (s : State) (entryId : String) (amt : Nat) : State :=
  { s with
    debtEntries := updateFn s.debtEntries entryId
      { s.debtEntries entryId with decryptedAmount := amt, isVerified := true }
    events := s.events ++ [Event.DecryptionVerified entryId amt] }

/-- Function verifyDecryption. -/
def verifyDecryption (G : Gateway) (s : State) (entryId : String)
    (abiEncodedClearAmount decryptionProof : List Nat) : Option Err × State :=
  if (s.debtEntries entryId).creditor = "" then (some Err.NotFound, s)
  else if (s.debtEntries entryId).isVerified then (some Err.AlreadyVerified, s)
  else if ¬ G.checkSig (s.debtEntries entryId).encryptedAmount abiEncodedClearAmount decryptionProof then
    (some Err.InvalidProof, s)
  else match decodeU32 abiEncodedClearAmount with
    | none => (some Err.AbiDecodeFail, s)
    | some amt => (none, verifyState s entryId amt)

/-- One iteration of the computeNetBalance loop: the accumulator is the pair
    (balance, firstEntry); the two ifs run in sequence as in the source. -/
def codeStep (f : String → DebtEntry) (p : String) (acc : CT × Bool) (eid : String) : CT × Bool :=
  let e := f eid
  let acc1 :=
    if compareStrings e.creditor p then
      ((if acc.2 then e.encryptedAmount else CT.add acc.1 e.encryptedAmount), false)
    else acc
  if compareStrings e.debtor p then
    ((if acc1.2 then CT.sub CT.zero e.encryptedAmount else CT.sub acc1.1 e.encryptedAmount), false)
  else acc1

/-- The storage writes of a successful computeNetBalance. -/
def computeState (s : State) (p : String) (bal : CT) : State :=
  { s with
    netBalances := updateFn s.netBalances p bal
    events := s.events ++ [Event.NetBalanceUpdated p bal] }

/-- Function computeNetBalance. -/
def computeNetBalance (s : State) (participantId : String) : Option Err × State :=
  if ¬ participantExists s.participantIds participantId then (some Err.NotFound, s)
  else
    let bal := (s.entryIds.foldl (codeStep s.debtEntries participantId) (CT.zero, true)).1
    (none, computeState s participantId bal)

/-- Function getDebtEntry: the read-only projection. -/
def getDebtEntry (s : State) (entryId : String) :
    Except Err (String × String × Nat × Bool × Nat) :=
  if (s.debtEntries entryId).creditor = "" then Except.error Err.NotFound
  else
    let e := s.debtEntries entryId
    Except.ok (e.creditor, e.debtor, e.timestamp, e.isVerified, e.decryptedAmount)

/-- Function getNetBalance. -/
def getNetBalance (s : State) (participantId : String) : Except Err CT :=
  if ¬ participantExists s.participantIds participantId then Except.error Err.NotFound
  else Except.ok (s.netBalances participantId)

/-- Function getAllEntryIds. -/
def getAllEntryIds (s : State) : List String :=
  s.entryIds

/-- Function getAllParticipantIds. -/
def getAllParticipantIds (s : State) : List String :=
  s.participantIds

/-- Function isAvailable. -/
def isAvailable : Bool :=
  true

/-- The three mutating external calls. -/
inductive Act : Type
| record : String → String → String → Nat → List Nat → Nat → Act
| verify : String → List Nat → List Nat → Act
| compute : String → Act
deriving DecidableEq, Repr

/-- Dispatch one external call. -/
def step (G : Gateway) (s : State) : Act → Option Err × State
| Act.record entryId creditor debtor enc prf now => recordDebt G s entryId creditor debtor enc prf now
| Act.verify entryId clear prf => verifyDecryption G s entryId clear prf
| Act.compute p => computeNetBalance s p

/-- The state after one external call (a revert leaves the state unchanged). -/
def exec (G : Gateway) (s : State) (a : Act) : State :=
  (step G s a).2

/-- States reachable from deployment by any sequence of external calls. -/
inductive Reachable (G : Gateway) : State → Prop
| init : Reachable G initialState
| next : ∀ {s : State}, Reachable G s → ∀ a : Act, Reachable G (exec G s a)

/- Claim-side definitions, written from the wording of the specification, to
   be compared with the embedded code. -/

/-- Claim-side fold step for the net balance (spec 4.2): the accumulator is
    none until the first contribution; a creditor entry adds, a debtor entry
    subtracts, an entry referencing neither side is skipped.  The creditor
    and debtor cases are exclusive because a stored entry never has
    creditor = debtor. -/
def claimStep (f : String → DebtEntry) (p : String) (acc : Option CT) (eid : String) : Option CT :=
  let e := f eid
  if e.creditor = p then
    some (match acc with
      | none => e.encryptedAmount
      | some b => CT.add b e.encryptedAmount)
  else if e.debtor = p then
    some (match acc with
      | none => CT.sub CT.zero e.encryptedAmount
      | some b => CT.sub b e.encryptedAmount)
  else acc

/-- Claim-side net balance: fold the accumulator over the entry log in order;
    with no contribution at all the stored value is the encrypted zero. -/
def claimBalance (f : String → DebtEntry) (p : String) (log : List String) : CT :=
  (log.foldl (claimStep f p) none).getD CT.zero

/-- A participant has appeared in some recorded entry: there is a
    DebtRecorded event naming it as creditor or debtor. -/
def appearedInEvents (p : String) (evs : List Event) : Bool :=
  evs.any fun e => match e with
    | Event.DebtRecorded _ c d => c == p || d == p
    | _ => false

/-- Claim-side participant registry (spec 3): participant ids in order of
    first appearance across the recorded entries, the creditor of an entry
    before its debtor. -/
def registryOfEvents (evs : List Event) : List String :=
  evs.foldl
    (fun l e => match e with
      | Event.DebtRecorded _ c d => updateParticipantList (updateParticipantList l c) d
      | _ => l)
    []

/- Properties named by the claims. -/

/-- C1 property at a state: computeNetBalance fails with NotFound exactly for
    a participant that never appeared in any recorded entry; otherwise it
    succeeds, stores the claim-side fold of the entry log as the new net
    balance and emits NetBalanceUpdated, touching nothing else. -/
def ComputeSpecHolds (s : State) (p : String) : Prop :=
  (appearedInEvents p s.events = false → computeNetBalance s p = (some Err.NotFound, s)) ∧
  (appearedInEvents p s.events = true →
    computeNetBalance s p =
      (none, computeState s p (claimBalance s.debtEntries p s.entryIds)))

/-- C2 property at a state: for every already verified entry, a further
    verifyDecryption fails with AlreadyVerified and changes nothing, and no
    external call ever clears the verified flag or changes the decrypted
    amount. -/
def VerifiedIsFinal (G : Gateway) (s : State) : Prop :=
  ∀ id : String, (s.debtEntries id).isVerified = true →
    (∀ clear prf : List Nat, verifyDecryption G s id clear prf = (some Err.AlreadyVerified, s)) ∧
    (∀ a : Act,
      ((exec G s a).debtEntries id).isVerified = true ∧
      ((exec G s a).debtEntries id).decryptedAmount = (s.debtEntries id).decryptedAmount)

/-- C3 (amended) property at a state: one external call never deletes log or
    registry entries; an entry whose stored creditor is non-empty keeps its
    creditor, debtor, ciphertext and timestamp; the verified flag and the
    decrypted amount change only through a successful verifyDecryption of a
    previously unverified entry; a net balance changes only through a
    successful computeNetBalance for that participant. -/
def FrameHolds (G : Gateway) (s : State) (a : Act) : Prop :=
  (∃ t : List String, (exec G s a).entryIds = s.entryIds ++ t) ∧
  (∃ t : List String, (exec G s a).participantIds = s.participantIds ++ t) ∧
  (∀ id : String, (s.debtEntries id).creditor ≠ "" →
    ((exec G s a).debtEntries id).creditor = (s.debtEntries id).creditor ∧
    ((exec G s a).debtEntries id).debtor = (s.debtEntries id).debtor ∧
    ((exec G s a).debtEntries id).encryptedAmount = (s.debtEntries id).encryptedAmount ∧
    ((exec G s a).debtEntries id).timestamp = (s.debtEntries id).timestamp) ∧
  (∀ id : String,
    ((exec G s a).debtEntries id).isVerified ≠ (s.debtEntries id).isVerified ∨
    ((exec G s a).debtEntries id).decryptedAmount ≠ (s.debtEntries id).decryptedAmount →
    ∃ clear prf : List Nat, a = Act.verify id clear prf ∧
      (s.debtEntries id).isVerified = false ∧
      ((exec G s a).debtEntries id).isVerified = true ∧
      (step G s a).1 = none) ∧
  (∀ p : String, (exec G s a).netBalances p ≠ s.netBalances p →
    a = Act.compute p ∧ (step G s a).1 = none)

/-- C10 property: with a stored creditor equal to the empty string the entry
    is invisible to getDebtEntry and verifyDecryption and does not trigger
    the DuplicateEntry gate, yet recording it succeeds and appends to the
    log, and a second recordDebt with the same id overwrites the entry and
    appends the id a second time. -/
def EmptyCreditorLoophole (G : Gateway) (s : State) (id debtor : String)
    (enc : Nat) (prf : List Nat) (now : Nat) (ct : CT) : Prop :=
  recordDebt G s id "" debtor enc prf now = (none, recordState s id "" debtor ct now) ∧
  (recordState s id "" debtor ct now).entryIds = s.entryIds ++ [id] ∧
  getDebtEntry (recordState s id "" debtor ct now) id = Except.error Err.NotFound ∧
  (∀ clear prf2 : List Nat,
    verifyDecryption G (recordState s id "" debtor ct now) id clear prf2 =
      (some Err.NotFound, recordState s id "" debtor ct now)) ∧
  (∀ (c2 d2 : String) (e2 : Nat) (p2 : List Nat) (n2 : Nat) (ct2 : CT),
    compareStrings c2 d2 = false →
    G.fromExt e2 p2 = some ct2 →
    ct2.isInit = true →
    recordDebt G (recordState s id "" debtor ct now) id c2 d2 e2 p2 n2 =
      (none, recordState (recordState s id "" debtor ct now) id c2 d2 ct2 n2) ∧
    (recordState (recordState s id "" debtor ct now) id c2 d2 ct2 n2).entryIds =
      s.entryIds ++ [id, id] ∧
    (recordState (recordState s id "" debtor ct now) id c2 d2 ct2 n2).debtEntries id =
      ⟨c2, d2, ct2, n2, 0, false⟩)

/-- The state invariant of the contract: an entry whose stored creditor is
    empty was never written by verifyDecryption, so it is unverified with a
    zero decrypted amount; every entry reachable through the log satisfies
    creditor different from debtor; the participant registry is exactly the
    first-seen registry of the recorded entries. -/
def LedgerInv (s : State) : Prop :=
  (∀ id : String, (s.debtEntries id).creditor = "" →
      (s.debtEntries id).isVerified = false ∧ (s.debtEntries id).decryptedAmount = 0) ∧
  (∀ id : String, id ∈ s.entryIds →
      (s.debtEntries id).creditor ≠ (s.debtEntries id).debtor) ∧
  s.participantIds = registryOfEvents s.events

/- Concrete fixtures for witnesses and counterexamples. -/

/-- A concrete gateway: every external ciphertext ingests to a distinct
    handle, every decryption proof passes the signature check. -/
def Gc : Gateway :=
  { fromExt := fun n _ => some (CT.ext n)
    checkSig := fun _ _ _ => true }

/-- A well-formed abi encoding of the uint32 value 5. -/
def clear5 : List Nat :=
  List.replicate 28 0 ++ [0, 0, 0, 5]

/-- State after recordDebt("e1", "alice", "bob", 5). -/
def s1ex : State :=
  exec Gc initialState (Act.record "e1" "alice" "bob" 5 [] 10)

/-- State after additionally recordDebt("e2", "bob", "carol", 7). -/
def s2ex : State :=
  exec Gc s1ex (Act.record "e2" "bob" "carol" 7 [] 11)

/-- State after additionally verifying entry e1 with cleartext 5. -/
def s3ex : State :=
  exec Gc s2ex (Act.verify "e1" clear5 [])

/-- State after recordDebt("e1", "", "bob", 1): an entry stored with an empty
    creditor. -/
def sEmptyCred : State :=
  exec Gc initialState (Act.record "e1" "" "bob" 1 [] 0)

/- Helper lemmas about the participant registry. -/

theorem participantExists_iff {l : List String} {p : String} :
    participantExists l p = true ↔ p ∈ l := by
  simp only [participantExists, compareStrings, List.any_eq_true, beq_iff_eq]
  constructor
  · rintro ⟨q, hq, rfl⟩
    exact hq
  · intro h
    exact ⟨p, h, rfl⟩

theorem mem_updateParticipantList {l : List String} {p q : String} :
    q ∈ updateParticipantList l p ↔ q ∈ l ∨ q = p := by
  unfold updateParticipantList
  split
  case isTrue h =>
    have hp : p ∈ l := participantExists_iff.mp h
    constructor
    · exact Or.inl
    · rintro (hq | rfl)
      · exact hq
      · exact hp
  case isFalse h =>
    simp [List.mem_append]

theorem updateParticipantList_append (l : List String) (p : String) :
    ∃ t : List String, updateParticipantList l p = l ++ t := by
  unfold updateParticipantList
  split
  · exact ⟨[], by simp⟩
  · exact ⟨[p], rfl⟩

theorem updateParticipantList_nodup {l : List String} (h : l.Nodup) (p : String) :
    (updateParticipantList l p).Nodup := by
  unfold updateParticipantList
  split
  case isTrue _ => exact h
  case isFalse hne =>
    have hp : p ∉ l := fun hm => hne (participantExists_iff.mpr hm)
    simp [List.nodup_append, h, hp]

theorem registryOfEvents_record (evs : List Event) (id c d : String) :
    registryOfEvents (evs ++ [Event.DebtRecorded id c d]) =
      updateParticipantList (updateParticipantList (registryOfEvents evs) c) d := by
  unfold registryOfEvents
  rw [List.foldl_append]
  rfl

theorem registryOfEvents_dv (evs : List Event) (id : String) (amt : Nat) :
    registryOfEvents (evs ++ [Event.DecryptionVerified id amt]) = registryOfEvents evs := by
  unfold registryOfEvents
  rw [List.foldl_append]
  rfl

theorem registryOfEvents_nbu (evs : List Event) (p : String) (b : CT) :
    registryOfEvents (evs ++ [Event.NetBalanceUpdated p b]) = registryOfEvents evs := by
  unfold registryOfEvents
  rw [List.foldl_append]
  rfl

theorem registryOfEvents_nodup (evs : List Event) : (registryOfEvents evs).Nodup := by
  induction evs using List.reverseRecOn with
  | nil => simp [registryOfEvents]
  | append_singleton evs e ih =>
    cases e with
    | DebtRecorded id c d =>
      rw [registryOfEvents_record]
      exact updateParticipantList_nodup (updateParticipantList_nodup ih c) d
    | DecryptionVerified id amt => rw [registryOfEvents_dv]; exact ih
    | NetBalanceUpdated p b => rw [registryOfEvents_nbu]; exact ih

theorem appearedInEvents_record (evs : List Event) (id c d p : String) :
    appearedInEvents p (evs ++ [Event.DebtRecorded id c d]) =
      (appearedInEvents p evs || (c == p || d == p)) := by
  simp [appearedInEvents, List.any_append]

theorem appearedInEvents_dv (evs : List Event) (id : String) (amt : Nat) (p : String) :
    appearedInEvents p (evs ++ [Event.DecryptionVerified id amt]) = appearedInEvents p evs := by
  simp [appearedInEvents, List.any_append]

theorem appearedInEvents_nbu (evs : List Event) (q : String) (b : CT) (p : String) :
    appearedInEvents p (evs ++ [Event.NetBalanceUpdated q b]) = appearedInEvents p evs := by
  simp [appearedInEvents, List.any_append]

theorem mem_registryOfEvents {p : String} {evs : List Event} :
    p ∈ registryOfEvents evs ↔ appearedInEvents p evs = true := by
  induction evs using List.reverseRecOn with
  | nil => simp [registryOfEvents, appearedInEvents]
  | append_singleton evs e ih =>
    cases e with
    | DebtRecorded id c d =>
      rw [registryOfEvents_record, appearedInEvents_record]
      simp only [mem_updateParticipantList, ih]
      constructor
      · rintro ((h | rfl) | rfl)
        · simp [h]
        · simp
        · simp
      · intro h
        rcases Bool.or_eq_true_iff.mp h with h | h
        · exact Or.inl (Or.inl h)
        · rcases Bool.or_eq_true_iff.mp h with h | h
          · exact Or.inl (Or.inr (beq_iff_eq.mp h).symm)
          · exact Or.inr (beq_iff_eq.mp h).symm
    | DecryptionVerified id amt =>
      rw [registryOfEvents_dv, appearedInEvents_dv]; exact ih
    | NetBalanceUpdated q b =>
      rw [registryOfEvents_nbu, appearedInEvents_nbu]; exact ih

/- Shape lemmas for the three mutating operations. -/

theorem recordDebt_err {G : Gateway} {s : State} {entryId creditor debtor : String}
    {enc : Nat} {prf : List Nat} {now : Nat} {e : Err}
    (h : (recordDebt G s entryId creditor debtor enc prf now).1 = some e) :
    (recordDebt G s entryId creditor debtor enc prf now).2 = s := by
  unfold recordDebt at h ⊢
  revert h
  split
  · intro _; rfl
  · split
    · intro _; rfl
    · split
      · intro _; rfl
      · split
        · intro _; rfl
        · intro h; simp at h

theorem recordDebt_succ {G : Gateway} {s : State} {entryId creditor debtor : String}
    {enc : Nat} {prf : List Nat} {now : Nat}
    (h : (recordDebt G s entryId creditor debtor enc prf now).1 = none) :
    (s.debtEntries entryId).creditor = "" ∧ compareStrings creditor debtor = false ∧
    ∃ ct : CT, G.fromExt enc prf = some ct ∧ ct.isInit = true ∧
      recordDebt G s entryId creditor debtor enc prf now =
        (none, recordState s entryId creditor debtor ct now) := by
  unfold recordDebt at h ⊢
  revert h
  split
  · intro h; simp at h
  · split
    · intro h; simp at h
    · split
      · intro h; simp at h
      · split
        · intro h; simp at h
        · rename_i h1 h2 x ct hct h3
          intro _
          refine ⟨by simpa using h1, by simpa using h2, ct, hct, by simpa using h3, rfl⟩

theorem verifyDecryption_err {G : Gateway} {s : State} {entryId : String}
    {clear prf : List Nat} {e : Err}
    (h : (verifyDecryption G s entryId clear prf).1 = some e) :
    (verifyDecryption G s entryId clear prf).2 = s := by
  unfold verifyDecryption at h ⊢
  revert h
  split
  · intro _; rfl
  · split
    · intro _; rfl
    · split
      · intro _; rfl
      · split
        · intro _; rfl
        · intro h; simp at h

theorem verifyDecryption_succ {G : Gateway} {s : State} {entryId : String}
    {clear prf : List Nat}
    (h : (verifyDecryption G s entryId clear prf).1 = none) :
    (s.debtEntries entryId).creditor ≠ "" ∧ (s.debtEntries entryId).isVerified = false ∧
    G.checkSig (s.debtEntries entryId).encryptedAmount clear prf = true ∧
    ∃ amt : Nat, decodeU32 clear = some amt ∧
      verifyDecryption G s entryId clear prf = (none, verifyState s entryId amt) := by
  unfold verifyDecryption at h ⊢
  revert h
  split
  · intro h; simp at h
  · split
    · intro h; simp at h
    · split
      · intro h; simp at h
      · split
        · intro h; simp at h
        · rename_i h1 h2 h3 x amt hamt
          intro _
          refine ⟨h1, by simpa using h2, by simpa using h3, amt, hamt, rfl⟩

theorem computeNetBalance_err {s : State} {p : String} {e : Err}
    (h : (computeNetBalance s p).1 = some e) : (computeNetBalance s p).2 = s := by
  unfold computeNetBalance at h ⊢
  revert h
  split
  · intro _; rfl
  · intro h; simp at h

theorem computeNetBalance_succ {s : State} {p : String}
    (h : (computeNetBalance s p).1 = none) :
    participantExists s.participantIds p = true ∧
    computeNetBalance s p =
      (none, computeState s p ((s.entryIds.foldl (codeStep s.debtEntries p) (CT.zero, true)).1)) := by
  unfold computeNetBalance at h ⊢
  revert h
  split
  · intro h; simp at h
  · rename_i h1
    intro _
    exact ⟨by simpa using h1, rfl⟩

theorem step_err_frame {G : Gateway} {s : State} {a : Act} {e : Err}
    (h : (step G s a).1 = some e) : (step G s a).2 = s := by
  cases a with
  | record entryId creditor debtor enc prf now => exact recordDebt_err h
  | verify entryId clear prf => exact verifyDecryption_err h
  | compute p => exact computeNetBalance_err h

theorem recordDebt_succ_of {G : Gateway} {s : State} {entryId creditor debtor : String}
    {enc : Nat} {prf : List Nat} {now : Nat} {ct : CT}
    (h1 : (s.debtEntries entryId).creditor = "")
    (h2 : compareStrings creditor debtor = false)
    (h3 : G.fromExt enc prf = some ct)
    (h4 : ct.isInit = true) :
    recordDebt G s entryId creditor debtor enc prf now =
      (none, recordState s entryId creditor debtor ct now) := by
  unfold recordDebt
  rw [h3]
  simp [h1, h2, h4]

/- Preservation of the ledger invariant. -/

theorem ledgerInv_init : LedgerInv initialState := by
  refine ⟨fun id _ => ⟨rfl, rfl⟩, fun id h => by simp [initialState] at h, rfl⟩

theorem ledgerInv_record {G : Gateway} {s : State} (hinv : LedgerInv s)
    (entryId creditor debtor : String) (enc : Nat) (prf : List Nat) (now : Nat) :
    LedgerInv (exec G s (Act.record entryId creditor debtor enc prf now)) := by
  have hex : exec G s (Act.record entryId creditor debtor enc prf now) =
      (recordDebt G s entryId creditor debtor enc prf now).2 := rfl
  cases hres : (recordDebt G s entryId creditor debtor enc prf now).1 with
  | some e => rw [hex, recordDebt_err hres]; exact hinv
  | none =>
    obtain ⟨_, hcd, ct, _, _, heq⟩ := recordDebt_succ hres
    rw [hex, heq]
    obtain ⟨inv1, inv2, inv3⟩ := hinv
    refine ⟨?_, ?_, ?_⟩
    · intro id hid
      by_cases h : id = entryId
      · subst h
        constructor <;> simp [recordState, updateFn]
      · have hsame : (recordState s entryId creditor debtor ct now).debtEntries id =
            s.debtEntries id := by
          simp [recordState, updateFn, h]
        rw [hsame] at hid ⊢
        exact inv1 id hid
    · intro id hid
      by_cases h : id = entryId
      · subst h
        have hnew : (recordState s id creditor debtor ct now).debtEntries id =
            ⟨creditor, debtor, ct, now, 0, false⟩ := by
          simp [recordState, updateFn]
        rw [hnew]
        simpa [compareStrings] using hcd
      · have hmem : id ∈ s.entryIds := by
          have := hid
          simp only [recordState, List.mem_append, List.mem_singleton] at this
          rcases this with hm | hm
          · exact hm
          · exact absurd hm h
        have hsame : (recordState s entryId creditor debtor ct now).debtEntries id =
            s.debtEntries id := by
          simp [recordState, updateFn, h]
        rw [hsame]
        exact inv2 id hmem
    · show updateParticipantList (updateParticipantList s.participantIds creditor) debtor =
        registryOfEvents (s.events ++ [Event.DebtRecorded entryId creditor debtor])
      rw [registryOfEvents_record, ← inv3]

theorem ledgerInv_verify {G : Gateway} {s : State} (hinv : LedgerInv s)
    (entryId : String) (clear prf : List Nat) :
    LedgerInv (exec G s (Act.verify entryId clear prf)) := by
  have hex : exec G s (Act.verify entryId clear prf) =
      (verifyDecryption G s entryId clear prf).2 := rfl
  cases hres : (verifyDecryption G s entryId clear prf).1 with
  | some e => rw [hex, verifyDecryption_err hres]; exact hinv
  | none =>
    obtain ⟨hcred, _, _, amt, _, heq⟩ := verifyDecryption_succ hres
    rw [hex, heq]
    obtain ⟨inv1, inv2, inv3⟩ := hinv
    refine ⟨?_, ?_, ?_⟩
    · intro id hid
      by_cases h : id = entryId
      · subst h
        exfalso
        apply hcred
        simpa [verifyState, updateFn] using hid
      · have hsame : (verifyState s entryId amt).debtEntries id = s.debtEntries id := by
          simp [verifyState, updateFn, h]
        rw [hsame] at hid ⊢
        exact inv1 id hid
    · intro id hid
      have hmem : id ∈ s.entryIds := by simpa [verifyState] using hid
      by_cases h : id = entryId
      · subst h
        have hnew : (verifyState s id amt).debtEntries id =
            { s.debtEntries id with decryptedAmount := amt, isVerified := true } := by
          simp [verifyState, updateFn]
        rw [hnew]
        exact inv2 id hmem
      · have hsame : (verifyState s entryId amt).debtEntries id = s.debtEntries id := by
          simp [verifyState, updateFn, h]
        rw [hsame]
        exact inv2 id hmem
    · show s.participantIds = registryOfEvents (s.events ++ [Event.DecryptionVerified entryId amt])
      rw [registryOfEvents_dv]
      exact inv3

theorem ledgerInv_compute {G : Gateway} {s : State} (hinv : LedgerInv s) (p : String) :
    LedgerInv (exec G s (Act.compute p)) := by
  have hex : exec G s (Act.compute p) = (computeNetBalance s p).2 := rfl
  cases hres : (computeNetBalance s p).1 with
  | some e => rw [hex, computeNetBalance_err hres]; exact hinv
  | none =>
    obtain ⟨_, heq⟩ := computeNetBalance_succ hres
    rw [hex, heq]
    obtain ⟨inv1, inv2, inv3⟩ := hinv
    refine ⟨inv1, inv2, ?_⟩
    show s.participantIds = registryOfEvents (s.events ++ [Event.NetBalanceUpdated p _])
    rw [registryOfEvents_nbu]
    exact inv3

theorem reachable_ledgerInv {G : Gateway} {s : State} (h : Reachable G s) : LedgerInv s := by
  induction h with
  | init => exact ledgerInv_init
  | next _ a ih =>
    cases a with
    | record entryId creditor debtor enc prf now =>
      exact ledgerInv_record ih entryId creditor debtor enc prf now
    | verify entryId clear prf => exact ledgerInv_verify ih entryId clear prf
    | compute p => exact ledgerInv_compute ih p

/- Equivalence of the source loop with the claim-side fold, on logs whose
   entries never have creditor equal to debtor. -/

theorem fold_rel_step (f : String → DebtEntry) (p : String) (acc : CT × Bool) (o : Option CT)
    (eid : String) (hcd : (f eid).creditor ≠ (f eid).debtor)
    (h : (acc.2 = true ∧ o = none ∧ acc.1 = CT.zero) ∨ (acc.2 = false ∧ o = some acc.1)) :
    ((codeStep f p acc eid).2 = true ∧ claimStep f p o eid = none ∧ (codeStep f p acc eid).1 = CT.zero) ∨
    ((codeStep f p acc eid).2 = false ∧ claimStep f p o eid = some (codeStep f p acc eid).1) := by
  by_cases hc : (f eid).creditor = p
  · have hd : (f eid).debtor ≠ p := fun hd => hcd (hc.trans hd.symm)
    rcases h with ⟨h1, h2, h3⟩ | ⟨h1, h2⟩
    · right
      constructor <;> simp [codeStep, claimStep, compareStrings, hc, hd, h1, h2, h3]
    · right
      constructor <;> simp [codeStep, claimStep, compareStrings, hc, hd, h1, h2]
  · by_cases hd : (f eid).debtor = p
    · rcases h with ⟨h1, h2, h3⟩ | ⟨h1, h2⟩
      · right
        constructor <;> simp [codeStep, claimStep, compareStrings, hc, hd, h1, h2, h3]
      · right
        constructor <;> simp [codeStep, claimStep, compareStrings, hc, hd, h1, h2]
    · rcases h with ⟨h1, h2, h3⟩ | ⟨h1, h2⟩
      · left
        refine ⟨?_, ?_, ?_⟩ <;> simp [codeStep, claimStep, compareStrings, hc, hd, h1, h2, h3]
      · right
        constructor <;> simp [codeStep, claimStep, compareStrings, hc, hd, h1, h2]

theorem fold_rel (f : String → DebtEntry) (p : String) :
    ∀ (l : List String) (acc : CT × Bool) (o : Option CT),
      (∀ eid ∈ l, (f eid).creditor ≠ (f eid).debtor) →
      ((acc.2 = true ∧ o = none ∧ acc.1 = CT.zero) ∨ (acc.2 = false ∧ o = some acc.1)) →
      (((l.foldl (codeStep f p) acc).2 = true ∧ l.foldl (claimStep f p) o = none ∧
          (l.foldl (codeStep f p) acc).1 = CT.zero) ∨
        ((l.foldl (codeStep f p) acc).2 = false ∧
          l.foldl (claimStep f p) o = some (l.foldl (codeStep f p) acc).1)) := by
  intro l
  induction l with
  | nil => intro acc o _ h; simpa using h
  | cons eid l ih =>
    intro acc o hcd h
    simp only [List.foldl_cons]
    exact ih (codeStep f p acc eid) (claimStep f p o eid)
      (fun e he => hcd e (List.mem_cons_of_mem _ he))
      (fold_rel_step f p acc o eid (hcd eid (List.mem_cons_self _ _)) h)

theorem codeBalance_eq_claimBalance (f : String → DebtEntry) (p : String) (l : List String)
    (hcd : ∀ eid ∈ l, (f eid).creditor ≠ (f eid).debtor) :
    (l.foldl (codeStep f p) (CT.zero, true)).1 = claimBalance f p l := by
  have h := fold_rel f p l (CT.zero, true) none hcd (Or.inl ⟨rfl, rfl, rfl⟩)
  unfold claimBalance
  rcases h with ⟨_, h2, h3⟩ | ⟨_, h2⟩
  · rw [h2, h3]; rfl
  · rw [h2]; rfl

/- Component lemmas for the success states. -/

theorem computeState_participantIds (s : State) (p : String) (b : CT) :
    (computeState s p b).participantIds = s.participantIds := rfl

theorem computeState_entryIds (s : State) (p : String) (b : CT) :
    (computeState s p b).entryIds = s.entryIds := rfl

theorem computeState_debtEntries (s : State) (p : String) (b : CT) :
    (computeState s p b).debtEntries = s.debtEntries := rfl

theorem computeState_netBalances (s : State) (p : String) (b : CT) :
    (computeState s p b).netBalances = updateFn s.netBalances p b := rfl

/-- C1: computeNetBalance fails with NotFound exactly when the participant has
    never appeared in any recorded entry; otherwise it folds the accumulator
    over the entry log in order as the specification describes (first creditor
    contribution taken directly, first debtor contribution subtracted from the
    encrypted zero, later ones added or subtracted, other entries skipped),
    stores the result as the net balance and emits NetBalanceUpdated. -/
theorem computeNetBalance_meets_spec (G : Gateway) (s : State) (p : String)
    (h : Reachable G s) : ComputeSpecHolds s p := by
  obtain ⟨_, inv2, inv3⟩ := reachable_ledgerInv h
  constructor
  · intro hno
    have hpe : participantExists s.participantIds p = false := by
      rw [Bool.eq_false_iff]
      intro hpt
      have hmem : p ∈ s.participantIds := participantExists_iff.mp hpt
      rw [inv3] at hmem
      have := mem_registryOfEvents.mp hmem
      rw [hno] at this
      exact Bool.false_ne_true this
    unfold computeNetBalance
    simp [hpe]
  · intro hyes
    have hpe : participantExists s.participantIds p = true := by
      apply participantExists_iff.mpr
      rw [inv3]
      exact mem_registryOfEvents.mpr hyes
    have hbal := codeBalance_eq_claimBalance s.debtEntries p s.entryIds inv2
    unfold computeNetBalance
    rw [hbal] at *
    simp [hpe, hbal]

/-- C1 witness: a concrete reachable two-entry ledger in which alice appeared,
    so computeNetBalance follows the specified fold for her. -/
theorem computeNetBalance_meets_spec_w :
    Reachable Gc s2ex ∧ appearedInEvents "alice" s2ex.events = true ∧
    ComputeSpecHolds s2ex "alice" := by
  have hr : Reachable Gc s2ex :=
    Reachable.next (Reachable.next Reachable.init (Act.record "e1" "alice" "bob" 5 [] 10))
      (Act.record "e2" "bob" "carol" 7 [] 11)
  exact ⟨hr, by decide, computeNetBalance_meets_spec Gc s2ex "alice" hr⟩

/-- C4: whenever an operation returns an error, it leaves the whole state,
    including the event log, exactly as it was. -/
theorem errorAborts (G : Gateway) (s : State) (a : Act) (e : Err)
    (h : (step G s a).1 = some e) :
    (step G s a).2 = s ∧ (step G s a).2.events = s.events :=
  ⟨step_err_frame h, by rw [step_err_frame h]⟩

/-- C4 witness: a computeNetBalance call for an unknown participant fails
    with NotFound and leaves the initial state unchanged. -/
theorem errorAborts_w :
    (step Gc initialState (Act.compute "alice")).1 = some Err.NotFound ∧
    (step Gc initialState (Act.compute "alice")).2 = initialState := by
  have h : (step Gc initialState (Act.compute "alice")).1 = some Err.NotFound := by decide
  exact ⟨h, (errorAborts Gc initialState (Act.compute "alice") Err.NotFound h).1⟩

/-- C5: after a successful recordDebt with a non-empty creditor, any second
    recordDebt with the same entry id fails with DuplicateEntry and leaves
    the state, in particular the first stored entry, unchanged. -/
theorem duplicateEntryRejected (G : Gateway) (s : State)
    (entryId c d : String) (enc : Nat) (prf : List Nat) (now : Nat)
    (c2 d2 : String) (enc2 : Nat) (prf2 : List Nat) (now2 : Nat)
    (hsucc : (recordDebt G s entryId c d enc prf now).1 = none) (hc : c ≠ "") :
    recordDebt G (recordDebt G s entryId c d enc prf now).2 entryId c2 d2 enc2 prf2 now2 =
      (some Err.DuplicateEntry, (recordDebt G s entryId c d enc prf now).2) := by
  obtain ⟨_, _, ct, _, _, heq⟩ := recordDebt_succ hsucc
  rw [heq]
  have hcred : ((recordState s entryId c d ct now).debtEntries entryId).creditor = c := by
    simp [recordState, updateFn]
  unfold recordDebt
  simp [hcred, hc]

/-- C5 witness: the concrete second recording of e1 is rejected. -/
theorem duplicateEntryRejected_w :
    (recordDebt Gc initialState "e1" "alice" "bob" 5 [] 10).1 = none ∧ "alice" ≠ "" ∧
    recordDebt Gc (recordDebt Gc initialState "e1" "alice" "bob" 5 [] 10).2 "e1" "x" "y" 2 [] 3 =
      (some Err.DuplicateEntry, (recordDebt Gc initialState "e1" "alice" "bob" 5 [] 10).2) := by
  have h1 : (recordDebt Gc initialState "e1" "alice" "bob" 5 [] 10).1 = none := by decide
  have h2 : "alice" ≠ "" := by decide
  exact ⟨h1, h2,
    duplicateEntryRejected Gc initialState "e1" "alice" "bob" 5 [] 10 "x" "y" 2 [] 3 h1 h2⟩

/-- C6 counterexample: in a reachable state where entry id e1 is already
    present, a recordDebt call whose creditor equals its debtor fails with
    DuplicateEntry, not with SelfDebt as the claim states: the duplicate
    check runs first. -/
theorem selfDebtShadowedByDuplicate :
    Reachable Gc s1ex ∧
    (step Gc s1ex (Act.record "e1" "x" "x" 2 [] 3)).1 = some Err.DuplicateEntry ∧
    (step Gc s1ex (Act.record "e1" "x" "x" 2 [] 3)).1 ≠ some Err.SelfDebt := by
  refine ⟨?_, by decide, by decide⟩
  exact Reachable.next Reachable.init (Act.record "e1" "alice" "bob" 5 [] 10)

/-- C6 amended: when the entry id is not already present and creditor equals
    debtor under exact string comparison, recordDebt fails with SelfDebt and
    performs no mutation at all. -/
theorem selfDebtRejected (G : Gateway) (s : State) (entryId c d : String)
    (enc : Nat) (prf : List Nat) (now : Nat)
    (hfresh : (s.debtEntries entryId).creditor = "") (hcd : c = d) :
    recordDebt G s entryId c d enc prf now = (some Err.SelfDebt, s) := by
  unfold recordDebt
  simp [hfresh, compareStrings, hcd]

/-- C6 amended witness: recording x owes x on the fresh ledger. -/
theorem selfDebtRejected_w :
    (initialState.debtEntries "e1").creditor = "" ∧
    recordDebt Gc initialState "e1" "x" "x" 2 [] 3 = (some Err.SelfDebt, initialState) := by
  have h1 : (initialState.debtEntries "e1").creditor = "" := by decide
  exact ⟨h1, selfDebtRejected Gc initialState "e1" "x" "x" 2 [] 3 h1 rfl⟩

/-- C9: two consecutive computeNetBalance calls for the same participant with
    an unchanged entry log return the same outcome, store equal balance
    ciphertexts and those decrypt to the same cleartext. -/
theorem computeNetBalance_idempotent (G : Gateway) (s : State) (p : String) :
    (step G (exec G s (Act.compute p)) (Act.compute p)).1 = (step G s (Act.compute p)).1 ∧
    (exec G (exec G s (Act.compute p)) (Act.compute p)).netBalances p =
      (exec G s (Act.compute p)).netBalances p ∧
    decrypt ((exec G (exec G s (Act.compute p)) (Act.compute p)).netBalances p) =
      decrypt ((exec G s (Act.compute p)).netBalances p) := by
  by_cases hpe : participantExists s.participantIds p = true
  · have h1 : computeNetBalance s p =
        (none, computeState s p ((s.entryIds.foldl (codeStep s.debtEntries p) (CT.zero, true)).1)) := by
      unfold computeNetBalance
      simp [hpe]
    have h2 : ∀ b : CT, computeNetBalance (computeState s p b) p =
        (none, computeState (computeState s p b) p
          ((s.entryIds.foldl (codeStep s.debtEntries p) (CT.zero, true)).1)) := by
      intro b
      unfold computeNetBalance
      rw [computeState_participantIds, computeState_entryIds, computeState_debtEntries]
      simp [hpe]
    have hex1 : exec G s (Act.compute p) =
        computeState s p ((s.entryIds.foldl (codeStep s.debtEntries p) (CT.zero, true)).1) := by
      show (computeNetBalance s p).2 = _
      rw [h1]
    refine ⟨?_, ?_, ?_⟩
    · show (computeNetBalance (exec G s (Act.compute p)) p).1 = (computeNetBalance s p).1
      rw [hex1, h2, h1]
    · show (computeNetBalance (exec G s (Act.compute p)) p).2.netBalances p = _
      rw [hex1, h2]
      simp [computeState_netBalances, updateFn, hex1]
    · show decrypt ((computeNetBalance (exec G s (Act.compute p)) p).2.netBalances p) = _
      rw [hex1, h2]
      simp [computeState_netBalances, updateFn, hex1]
  · have h1 : computeNetBalance s p = (some Err.NotFound, s) := by
      unfold computeNetBalance
      simp [hpe]
    have hex1 : exec G s (Act.compute p) = s := by
      show (computeNetBalance s p).2 = s
      rw [h1]
    refine ⟨?_, ?_, ?_⟩ <;> simp only [hex1]

/-- C2: in a reachable state, once an entry is verified, a second
    verifyDecryption fails with AlreadyVerified leaving everything unchanged,
    and no operation ever clears the flag or changes the decrypted amount. -/
theorem verifiedEntryIsFinal (G : Gateway) (s : State) (h : Reachable G s) :
    VerifiedIsFinal G s := by
  obtain ⟨inv1, _, _⟩ := reachable_ledgerInv h
  intro id hv
  have hcred : (s.debtEntries id).creditor ≠ "" := by
    intro hc
    have hfalse := (inv1 id hc).1
    rw [hv] at hfalse
    exact absurd hfalse (by simp)
  refine ⟨?_, ?_⟩
  · intro clear prf
    unfold verifyDecryption
    simp [hcred, hv]
  · intro a
    cases a with
    | record entryId c d enc prf now =>
      have hex : exec G s (Act.record entryId c d enc prf now) =
          (recordDebt G s entryId c d enc prf now).2 := rfl
      cases hres : (recordDebt G s entryId c d enc prf now).1 with
      | some e =>
        rw [hex, recordDebt_err hres]
        exact ⟨hv, rfl⟩
      | none =>
        obtain ⟨hfresh, _, ct, _, _, heq⟩ := recordDebt_succ hres
        have hne : id ≠ entryId := by
          intro h'
          apply hcred
          rw [h']
          exact hfresh
        rw [hex, heq]
        have hsame : (recordState s entryId c d ct now).debtEntries id = s.debtEntries id := by
          simp [recordState, updateFn, hne]
        rw [show ((none : Option Err), recordState s entryId c d ct now).2 =
          recordState s entryId c d ct now from rfl, hsame]
        exact ⟨hv, rfl⟩
    | verify entryId clear prf =>
      have hex : exec G s (Act.verify entryId clear prf) =
          (verifyDecryption G s entryId clear prf).2 := rfl
      by_cases hne : id = entryId
      · subst hne
        have hrej : verifyDecryption G s id clear prf = (some Err.AlreadyVerified, s) := by
          unfold verifyDecryption
          simp [hcred, hv]
        rw [hex, hrej]
        exact ⟨hv, rfl⟩
      · cases hres : (verifyDecryption G s entryId clear prf).1 with
        | some e =>
          rw [hex, verifyDecryption_err hres]
          exact ⟨hv, rfl⟩
        | none =>
          obtain ⟨_, _, _, amt, _, heq⟩ := verifyDecryption_succ hres
          rw [hex, heq]
          have hsame : (verifyState s entryId amt).debtEntries id = s.debtEntries id := by
            simp [verifyState, updateFn, hne]
          rw [show ((none : Option Err), verifyState s entryId amt).2 =
            verifyState s entryId amt from rfl, hsame]
          exact ⟨hv, rfl⟩
    | compute p =>
      have hex : exec G s (Act.compute p) = (computeNetBalance s p).2 := rfl
      cases hres : (computeNetBalance s p).1 with
      | some e =>
        rw [hex, computeNetBalance_err hres]
        exact ⟨hv, rfl⟩
      | none =>
        obtain ⟨_, heq⟩ := computeNetBalance_succ hres
        rw [hex, heq]
        exact ⟨hv, rfl⟩

/-- C2 witness: a concrete reachable ledger whose entry e1 has been verified
    to the cleartext 5; the finality property holds there. -/
theorem verifiedEntryIsFinal_w :
    Reachable Gc s3ex ∧ (s3ex.debtEntries "e1").isVerified = true ∧
    VerifiedIsFinal Gc s3ex := by
  have hr : Reachable Gc s3ex :=
    Reachable.next
      (Reachable.next (Reachable.next Reachable.init (Act.record "e1" "alice" "bob" 5 [] 10))
        (Act.record "e2" "bob" "carol" 7 [] 11))
      (Act.verify "e1" clear5 [])
  exact ⟨hr, by decide, verifiedEntryIsFinal Gc s3ex hr⟩

theorem frameHolds_of_eq {G : Gateway} {s : State} {a : Act}
    (h : exec G s a = s) : FrameHolds G s a := by
  unfold FrameHolds
  rw [h]
  refine ⟨⟨[], by simp⟩, ⟨[], by simp⟩, fun id _ => ⟨rfl, rfl, rfl, rfl⟩, ?_, ?_⟩
  · intro id hid
    rcases hid with h' | h' <;> exact absurd rfl h'
  · intro p hp
    exact absurd rfl hp

/-- C3 amended: in a reachable state, one external call never removes entry
    log or registry elements; an entry whose stored creditor is non-empty
    keeps its creditor, debtor, ciphertext and timestamp; the verified flag
    and decrypted amount change only by a successful verifyDecryption of a
    previously unverified entry; a stored balance changes only by a
    successful computeNetBalance for that participant.  (The claim as frozen
    also covers entries recorded with an empty creditor; those can be wholly
    overwritten, see the counterexample.) -/
theorem frameEffects (G : Gateway) (s : State) (hre : Reachable G s) (a : Act) :
    FrameHolds G s a := by
  obtain ⟨inv1, _, _⟩ := reachable_ledgerInv hre
  cases a with
  | record entryId c d enc prf now =>
    have hex : exec G s (Act.record entryId c d enc prf now) =
        (recordDebt G s entryId c d enc prf now).2 := rfl
    cases hres : (recordDebt G s entryId c d enc prf now).1 with
    | some e => exact frameHolds_of_eq (by rw [hex, recordDebt_err hres])
    | none =>
      obtain ⟨hfresh, hcd, ct, hct, hinit, heq⟩ := recordDebt_succ hres
      have hex2 : exec G s (Act.record entryId c d enc prf now) =
          recordState s entryId c d ct now := by
        rw [hex, heq]
      unfold FrameHolds
      rw [hex2]
      refine ⟨⟨[entryId], rfl⟩, ?_, ?_, ?_, ?_⟩
      · obtain ⟨t1, h1⟩ := updateParticipantList_append s.participantIds c
        obtain ⟨t2, h2⟩ := updateParticipantList_append (updateParticipantList s.participantIds c) d
        refine ⟨t1 ++ t2, ?_⟩
        show updateParticipantList (updateParticipantList s.participantIds c) d = _
        rw [h2, h1, List.append_assoc]
      · intro id hid
        have hne : id ≠ entryId := by
          intro h'
          apply hid
          rw [h']
          exact hfresh
        have hsame : (recordState s entryId c d ct now).debtEntries id = s.debtEntries id := by
          simp [recordState, updateFn, hne]
        rw [hsame]
        exact ⟨rfl, rfl, rfl, rfl⟩
      · intro id hid
        exfalso
        by_cases hne : id = entryId
        · subst hne
          have hnew : (recordState s id c d ct now).debtEntries id =
              ⟨c, d, ct, now, 0, false⟩ := by
            simp [recordState, updateFn]
          obtain ⟨hv0, hd0⟩ := inv1 id hfresh
          rw [hnew] at hid
          rcases hid with h' | h'
          · exact h' hv0.symm
          · exact h' hd0.symm
        · have hsame : (recordState s entryId c d ct now).debtEntries id = s.debtEntries id := by
            simp [recordState, updateFn, hne]
          rw [hsame] at hid
          rcases hid with h' | h' <;> exact h' rfl
      · intro q hq
        exact absurd rfl hq
  | verify entryId clear prf =>
    have hex : exec G s (Act.verify entryId clear prf) =
        (verifyDecryption G s entryId clear prf).2 := rfl
    cases hres : (verifyDecryption G s entryId clear prf).1 with
    | some e => exact frameHolds_of_eq (by rw [hex, verifyDecryption_err hres])
    | none =>
      obtain ⟨hcred, hver, hsig, amt, hamt, heq⟩ := verifyDecryption_succ hres
      have hex2 : exec G s (Act.verify entryId clear prf) = verifyState s entryId amt := by
        rw [hex, heq]
      unfold FrameHolds
      rw [hex2]
      refine ⟨⟨[], by simp [verifyState]⟩, ⟨[], by simp [verifyState]⟩, ?_, ?_, ?_⟩
      · intro id _
        by_cases hne : id = entryId
        · subst hne
          have hnew : (verifyState s id amt).debtEntries id =
              { s.debtEntries id with decryptedAmount := amt, isVerified := true } := by
            simp [verifyState, updateFn]
          rw [hnew]
          exact ⟨rfl, rfl, rfl, rfl⟩
        · have hsame : (verifyState s entryId amt).debtEntries id = s.debtEntries id := by
            simp [verifyState, updateFn, hne]
          rw [hsame]
          exact ⟨rfl, rfl, rfl, rfl⟩
      · intro id hid
        by_cases hne : id = entryId
        · subst hne
          refine ⟨clear, prf, rfl, hver, ?_, hres⟩
          simp [verifyState, updateFn]
        · exfalso
          have hsame : (verifyState s entryId amt).debtEntries id = s.debtEntries id := by
            simp [verifyState, updateFn, hne]
          rw [hsame] at hid
          rcases hid with h' | h' <;> exact h' rfl
      · intro q hq
        exact absurd rfl hq
  | compute p =>
    have hex : exec G s (Act.compute p) = (computeNetBalance s p).2 := rfl
    cases hres : (computeNetBalance s p).1 with
    | some e => exact frameHolds_of_eq (by rw [hex, computeNetBalance_err hres])
    | none =>
      obtain ⟨hpe, heq⟩ := computeNetBalance_succ hres
      have hex2 : exec G s (Act.compute p) =
          computeState s p ((s.entryIds.foldl (codeStep s.debtEntries p) (CT.zero, true)).1) := by
        rw [hex, heq]
      unfold FrameHolds
      rw [hex2]
      refine ⟨⟨[], by simp [computeState]⟩, ⟨[], by simp [computeState]⟩, ?_, ?_, ?_⟩
      · intro id _
        exact ⟨rfl, rfl, rfl, rfl⟩
      · intro id hid
        exfalso
        rcases hid with h' | h' <;> exact h' rfl
      · intro q hq
        by_cases hqp : q = p
        · subst hqp
          exact ⟨rfl, hres⟩
        · exfalso
          apply hq
          show updateFn s.netBalances p _ q = s.netBalances q
          simp [updateFn, hqp]

/-- C3 counterexample: the entry e1 is stored in a reachable ledger and
    present in the entry log, yet a later recordDebt call replaces its
    ciphertext and its timestamp: the claimed immutability fails for an
    entry recorded with an empty creditor. -/
theorem entryOverwritten :
    Reachable Gc sEmptyCred ∧ "e1" ∈ sEmptyCred.entryIds ∧
    (sEmptyCred.debtEntries "e1").encryptedAmount = CT.ext 1 ∧
    ((exec Gc sEmptyCred (Act.record "e1" "alice" "bob" 2 [] 7)).debtEntries "e1").encryptedAmount =
      CT.ext 2 ∧
    ((exec Gc sEmptyCred (Act.record "e1" "alice" "bob" 2 [] 7)).debtEntries "e1").timestamp ≠
      (sEmptyCred.debtEntries "e1").timestamp := by
  refine ⟨?_, by decide, by decide, by decide, by decide⟩
  exact Reachable.next Reachable.init (Act.record "e1" "" "bob" 1 [] 0)

/-- C3 amended witness: the frame property at a concrete reachable one-entry
    ledger under a verifying call. -/
theorem frameEffects_w :
    Reachable Gc s1ex ∧ FrameHolds Gc s1ex (Act.verify "e1" clear5 []) := by
  have hr : Reachable Gc s1ex :=
    Reachable.next Reachable.init (Act.record "e1" "alice" "bob" 5 [] 10)
  exact ⟨hr, frameEffects Gc s1ex hr (Act.verify "e1" clear5 [])⟩

/-- C7 counterexample: recordDebt with an empty creditor and a distinct
    debtor succeeds, stores the entry and appends it to the log, yet the
    promised getDebtEntry projection fails with NotFound. -/
theorem recordedButInvisible :
    (step Gc initialState (Act.record "e1" "" "bob" 1 [] 0)).1 = none ∧
    "e1" ∈ sEmptyCred.entryIds ∧
    getDebtEntry sEmptyCred "e1" = Except.error Err.NotFound := by
  refine ⟨by decide, by decide, by rfl⟩

/-- C7 amended: after a successful recordDebt whose creditor is non-empty,
    the ledger stores the entry with verified false and decrypted amount 0,
    appends the id to the entry log, registers both participants if newly
    seen, emits DebtRecorded, and getDebtEntry returns exactly the projection
    (creditor, debtor, timestamp, false, 0) — a tuple that by its type
    contains no ciphertext handle. -/
theorem recordDebt_postcondition (G : Gateway) (s : State)
    (entryId c d : String) (enc : Nat) (prf : List Nat) (now : Nat) (ct : CT)
    (hfresh : (s.debtEntries entryId).creditor = "")
    (hcd : compareStrings c d = false)
    (hct : G.fromExt enc prf = some ct)
    (hinit : ct.isInit = true)
    (hc : c ≠ "") :
    recordDebt G s entryId c d enc prf now = (none, recordState s entryId c d ct now) ∧
    (recordState s entryId c d ct now).debtEntries entryId = ⟨c, d, ct, now, 0, false⟩ ∧
    (recordState s entryId c d ct now).entryIds = s.entryIds ++ [entryId] ∧
    c ∈ (recordState s entryId c d ct now).participantIds ∧
    d ∈ (recordState s entryId c d ct now).participantIds ∧
    (∀ q : String, q ∈ (recordState s entryId c d ct now).participantIds ↔
      q ∈ s.participantIds ∨ q = c ∨ q = d) ∧
    (recordState s entryId c d ct now).events = s.events ++ [Event.DebtRecorded entryId c d] ∧
    getDebtEntry (recordState s entryId c d ct now) entryId = Except.ok (c, d, now, false, 0) := by
  have hnew : (recordState s entryId c d ct now).debtEntries entryId =
      ⟨c, d, ct, now, 0, false⟩ := by
    simp [recordState, updateFn]
  refine ⟨recordDebt_succ_of hfresh hcd hct hinit, hnew, rfl, ?_, ?_, ?_, rfl, ?_⟩
  · show c ∈ updateParticipantList (updateParticipantList s.participantIds c) d
    rw [mem_updateParticipantList, mem_updateParticipantList]
    exact Or.inl (Or.inr rfl)
  · show d ∈ updateParticipantList (updateParticipantList s.participantIds c) d
    rw [mem_updateParticipantList]
    exact Or.inr rfl
  · intro q
    show q ∈ updateParticipantList (updateParticipantList s.participantIds c) d ↔ _
    rw [mem_updateParticipantList, mem_updateParticipantList]
    tauto
  · unfold getDebtEntry
    rw [hnew]
    simp [hc]

/-- C7 amended witness: the concrete recording of e1 by alice against bob at
    time 10 yields exactly the claimed projection. -/
theorem recordDebt_postcondition_w :
    getDebtEntry (recordState initialState "e1" "alice" "bob" (CT.ext 5) 10) "e1" =
      Except.ok ("alice", "bob", 10, false, 0) := by
  have h := recordDebt_postcondition Gc initialState "e1" "alice" "bob" 5 [] 10 (CT.ext 5)
    rfl (by decide) rfl rfl (by decide)
  exact h.2.2.2.2.2.2.2

/-- C8: in every reachable state the participant registry has no duplicates
    and equals the first-appearance registry read off the recorded entries,
    the creditor of each entry registered before its debtor. -/
theorem participantIds_firstSeen (G : Gateway) (s : State) (h : Reachable G s) :
    s.participantIds.Nodup ∧ s.participantIds = registryOfEvents s.events := by
  obtain ⟨_, _, inv3⟩ := reachable_ledgerInv h
  exact ⟨inv3 ▸ registryOfEvents_nodup s.events, inv3⟩

/-- C8 witness: after recording e1 (alice, bob) and e2 (bob, carol) the
    registry is exactly alice, bob, carol in first-seen order. -/
theorem participantIds_firstSeen_w :
    Reachable Gc s2ex ∧ s2ex.participantIds = ["alice", "bob", "carol"] ∧
    (s2ex.participantIds.Nodup ∧ s2ex.participantIds = registryOfEvents s2ex.events) := by
  have hr : Reachable Gc s2ex :=
    Reachable.next (Reachable.next Reachable.init (Act.record "e1" "alice" "bob" 5 [] 10))
      (Act.record "e2" "bob" "carol" 7 [] 11)
  exact ⟨hr, by decide, participantIds_firstSeen Gc s2ex hr⟩

/-- C10: entry existence at the public interface is the stored creditor being
    non-empty: recording with an empty creditor and a distinct debtor
    succeeds and appends to the log, getDebtEntry and verifyDecryption on
    that id fail with NotFound, and a second recordDebt with the same id
    does not fail with DuplicateEntry but overwrites the entry and appends
    the id a second time. -/
theorem emptyCreditorBehaviour (G : Gateway) (s : State) (id debtor : String)
    (enc : Nat) (prf : List Nat) (now : Nat) (ct : CT)
    (hfresh : (s.debtEntries id).creditor = "")
    (hd : debtor ≠ "")
    (hct : G.fromExt enc prf = some ct)
    (hinit : ct.isInit = true) :
    EmptyCreditorLoophole G s id debtor enc prf now ct := by
  have hcd : compareStrings "" debtor = false := by
    show ("" == debtor) = false
    exact beq_eq_false_iff_ne.mpr (Ne.symm hd)
  have hcr : ((recordState s id "" debtor ct now).debtEntries id).creditor = "" := by
    simp [recordState, updateFn]
  refine ⟨recordDebt_succ_of hfresh hcd hct hinit, rfl, ?_, ?_, ?_⟩
  · unfold getDebtEntry
    simp [hcr]
  · intro clear prf2
    unfold verifyDecryption
    simp [hcr]
  · intro c2 d2 e2 p2 n2 ct2 hcd2 hct2 hinit2
    refine ⟨recordDebt_succ_of hcr hcd2 hct2 hinit2, ?_, ?_⟩
    · show (s.entryIds ++ [id]) ++ [id] = s.entryIds ++ [id, id]
      simp
    · simp [recordState, updateFn]

/-- C10 witness: the concrete loophole run on the fresh ledger. -/
theorem emptyCreditorBehaviour_w :
    (initialState.debtEntries "e1").creditor = "" ∧ "bob" ≠ "" ∧
    EmptyCreditorLoophole Gc initialState "e1" "bob" 1 [] 0 (CT.ext 1) := by
  refine ⟨rfl, by decide, ?_⟩
  exact emptyCreditorBehaviour Gc initialState "e1" "bob" 1 [] 0 (CT.ext 1) rfl (by decide) rfl rfl
